import Mathlib

/-!
Verification of the string-insertion engine of
`src/graphics/pdcurs34/pdcurses/pdc_insstr.c`.

Modelling conventions:

* A C string (`const char *` or `const wchar_t *`) is modelled as
  `Option (List Nat)`: `none` is the NULL pointer, and `some s` is the
  list of character units strictly before the NUL terminator (so every
  element of `s` corresponds to a nonzero unit, and `s.length` is
  `strlen`).  Reading position `m` of the string is `s.getD m 0`: the
  terminator, and any out-of-bounds position past it, reads as `0`.
* A window (`WINDOW *`) is `Option σ` over an abstract state type `σ`;
  the external single-cell insert primitive `winsch` is a parameter
  `ins : σ → Nat → Option σ` (`none` models an ERR return, in which case
  the window is not mutated by that call).
* The return convention of the C functions (an `int` that is `OK` or
  `ERR`, with the window mutated in place) is modelled by `EngineOut`:
  the `ok` flag, the final window, and — as instrumentation — the list
  of units passed to the insert primitive, in call order.
* `PDC_mbtowc` is a parameter `dec : List Nat → Nat → Int × Nat`: given
  the remaining source suffix and the remaining byte budget it returns
  the `retval` byte-consumption count (nonpositive meaning stop) and the
  decoded unit.
-/

/-- Result of one engine call: the OK/ERR flag, the window after the
call, and the units passed to the single-cell insert primitive, in call
order. -/
structure EngineOut (σ : Type) where
  ok : Bool
  win : Option σ
  calls : List Nat
  deriving DecidableEq

/-- The insertion loop shared by the narrow-build `winsnstr`, the insert
phase of the wide-build `winsnstr`, and `wins_nwstr`; it embeds the C
loop `while (n) { if (winsch(win, s[--n]) == ERR) return ERR; }`:
the units at positions `n-1, n-2, ..., 0` are passed to the primitive in
that order, aborting at the first failing call. -/
def insLoop {σ : Type} (ins : σ → Nat → Option σ) (s : List Nat) :
    Nat → σ → Bool × σ × List Nat
  | 0, w => (true, w, [])
  | Nat.succ m, w =>
    match ins w (s.getD m 0) with
    | none => (false, w, [s.getD m 0])
    | some w2 =>
      let r := insLoop ins s m w2
      (r.1, r.2.1, s.getD m 0 :: r.2.2)

/-- The effective count computed by `winsnstr` and `wins_nwstr`:
`len = strlen(str); if (n < 0 || n < len) { n = len; }`.  The result is
nonnegative, so the `Int.toNat` view used as the loop counter is exact. -/
def effCount (s : List Nat) (n : Int) : Nat :=
  (if n < 0 ∨ n < (s.length : Int) then (s.length : Int) else n).toNat

/-- Narrow-build `winsnstr` (the `#else` branch of
`CONFIG_PDCURSES_WIDE`): validate the window and string, compute the
effective count, and run the reverse insertion loop. -/
def winsnstr {σ : Type} (ins : σ → Nat → Option σ) (win : Option σ)
    (str : Option (List Nat)) (n : Int) : EngineOut σ :=
  match win, str with
  | some w, some s =>
    let r := insLoop ins s (effCount s n) w
    ⟨r.1, some r.2.1, r.2.2⟩
  | _, _ => ⟨false, win, []⟩

/-- `wins_nwstr`: computes the length by scanning to the terminator,
applies the same effective-count adjustment, and runs the same reverse
insertion loop directly on the wide source. -/
def wins_nwstr {σ : Type} (ins : σ → Nat → Option σ) (win : Option σ)
    (wstr : Option (List Nat)) (n : Int) : EngineOut σ :=
  match win, wstr with
  | some w, some s =>
    let r := insLoop ins s (effCount s n) w
    ⟨r.1, some r.2.1, r.2.2⟩
  | _, _ => ⟨false, win, []⟩

/-- The extra cap of the wide build: on top of the effective-count
adjustment shared with the narrow build, `if (n > 512) { n = 512; }`. -/
def wideEff (s : List Nat) (n : Int) : Nat :=
  if effCount s n > 512 then 512 else effCount s n

/-- The wide-build decode loop of `winsnstr`:
`while (str[i] && i < n) { retval = PDC_mbtowc(p, str + i, n - i);
if (retval <= 0) break; p++; i += retval; }`.  The guard `str[i]` is
`i < s.length` in the model (units before the terminator are nonzero,
the terminator reads as `0`).  The returned list is the decoded buffer
`wstr[0..p)` in decode order. -/
def decodeLoop (dec : List Nat → Nat → Int × Nat) (s : List Nat)
    (n : Nat) (i : Nat) : List Nat :=
  if h : i < s.length ∧ i < n then
    if hr : (dec (s.drop i) (n - i)).1 ≤ 0 then []
    else
      (dec (s.drop i) (n - i)).2 ::
        decodeLoop dec s n (i + (dec (s.drop i) (n - i)).1.toNat)
  else []
termination_by n - i
decreasing_by
  simp only [not_le] at hr
  omega

/-- Wide-build `winsnstr` (the `CONFIG_PDCURSES_WIDE` branch): validate,
compute the effective count capped at 512, decode the multibyte source
into the intermediate buffer, then insert the buffer in reverse decode
order (`while (p > wstr) { winsch(win, *--p); }`). -/
def winsnstrWide {σ : Type} (dec : List Nat → Nat → Int × Nat)
    (ins : σ → Nat → Option σ) (win : Option σ)
    (str : Option (List Nat)) (n : Int) : EngineOut σ :=
  match win, str with
  | some w, some s =>
    let buf := decodeLoop dec s (wideEff s n) 0
    let r := insLoop ins buf buf.length w
    ⟨r.1, some r.2.1, r.2.2⟩
  | _, _ => ⟨false, win, []⟩

/-! Thin entry-point wrappers.  `stdscr` (the process-wide default
window) and the cursor-movement primitive `wmove` are external to the
file, so they appear as parameters: `std : Option σ` and
`mv : σ → Int → Int → Option σ` (`none` models a failed move, which
leaves the window unchanged; `move(y, x)` is `wmove` applied to
`stdscr`, and `wmove` on a NULL window fails). -/

/-- `insstr(str)` forwards to `winsnstr(stdscr, str, -1)`. -/
def insstr {σ : Type} (ins : σ → Nat → Option σ) (std : Option σ)
    (str : Option (List Nat)) : EngineOut σ :=
  winsnstr ins std str (-1)

/-- `winsstr(win, str)` forwards to `winsnstr(win, str, -1)`. -/
def winsstr {σ : Type} (ins : σ → Nat → Option σ) (win : Option σ)
    (str : Option (List Nat)) : EngineOut σ :=
  winsnstr ins win str (-1)

/-- `insnstr(str, n)` forwards to `winsnstr(stdscr, str, n)`. -/
def insnstr {σ : Type} (ins : σ → Nat → Option σ) (std : Option σ)
    (str : Option (List Nat)) (n : Int) : EngineOut σ :=
  winsnstr ins std str n

/-- `mvinsstr(y, x, str)`: `if (move(y, x) == ERR) return ERR;` then
forwards to `winsnstr(stdscr, str, -1)`. -/
def mvinsstr {σ : Type} (ins : σ → Nat → Option σ)
    (mv : σ → Int → Int → Option σ) (std : Option σ) (y x : Int)
    (str : Option (List Nat)) : EngineOut σ :=
  match std with
  | some w =>
    match mv w y x with
    | none => ⟨false, some w, []⟩
    | some w2 => winsnstr ins (some w2) str (-1)
  | none => ⟨false, none, []⟩

/-- `mvwinsstr(win, y, x, str)`: `if (wmove(win, y, x) == ERR) return
ERR;` then forwards to `winsnstr(win, str, -1)`. -/
def mvwinsstr {σ : Type} (ins : σ → Nat → Option σ)
    (mv : σ → Int → Int → Option σ) (win : Option σ) (y x : Int)
    (str : Option (List Nat)) : EngineOut σ :=
  match win with
  | some w =>
    match mv w y x with
    | none => ⟨false, some w, []⟩
    | some w2 => winsnstr ins (some w2) str (-1)
  | none => ⟨false, none, []⟩

/-- `mvinsnstr(y, x, str, n)`: move first, then forward to
`winsnstr(stdscr, str, n)`. -/
def mvinsnstr {σ : Type} (ins : σ → Nat → Option σ)
    (mv : σ → Int → Int → Option σ) (std : Option σ) (y x : Int)
    (str : Option (List Nat)) (n : Int) : EngineOut σ :=
  match std with
  | some w =>
    match mv w y x with
    | none => ⟨false, some w, []⟩
    | some w2 => winsnstr ins (some w2) str n
  | none => ⟨false, none, []⟩

/-- `mvwinsnstr(win, y, x, str, n)`: move first, then forward to
`winsnstr(win, str, n)`. -/
def mvwinsnstr {σ : Type} (ins : σ → Nat → Option σ)
    (mv : σ → Int → Int → Option σ) (win : Option σ) (y x : Int)
    (str : Option (List Nat)) (n : Int) : EngineOut σ :=
  match win with
  | some w =>
    match mv w y x with
    | none => ⟨false, some w, []⟩
    | some w2 => winsnstr ins (some w2) str n
  | none => ⟨false, none, []⟩

/-- `ins_wstr(wstr)` forwards to `wins_nwstr(stdscr, wstr, -1)`. -/
def ins_wstr {σ : Type} (ins : σ → Nat → Option σ) (std : Option σ)
    (wstr : Option (List Nat)) : EngineOut σ :=
  wins_nwstr ins std wstr (-1)

/-- `wins_wstr(win, wstr)` forwards to `wins_nwstr(win, wstr, -1)`. -/
def wins_wstr {σ : Type} (ins : σ → Nat → Option σ) (win : Option σ)
    (wstr : Option (List Nat)) : EngineOut σ :=
  wins_nwstr ins win wstr (-1)

/-- `ins_nwstr(wstr, n)` forwards to `wins_nwstr(stdscr, wstr, n)`. -/
def ins_nwstr {σ : Type} (ins : σ → Nat → Option σ) (std : Option σ)
    (wstr : Option (List Nat)) (n : Int) : EngineOut σ :=
  wins_nwstr ins std wstr n

/-- `mvins_wstr(y, x, wstr)`: move first, then forward to
`wins_nwstr(stdscr, wstr, -1)`. -/
def mvins_wstr {σ : Type} (ins : σ → Nat → Option σ)
    (mv : σ → Int → Int → Option σ) (std : Option σ) (y x : Int)
    (wstr : Option (List Nat)) : EngineOut σ :=
  match std with
  | some w =>
    match mv w y x with
    | none => ⟨false, some w, []⟩
    | some w2 => wins_nwstr ins (some w2) wstr (-1)
  | none => ⟨false, none, []⟩

/-- `mvwins_wstr(win, y, x, wstr)`: move first, then forward to
`wins_nwstr(win, wstr, -1)`. -/
def mvwins_wstr {σ : Type} (ins : σ → Nat → Option σ)
    (mv : σ → Int → Int → Option σ) (win : Option σ) (y x : Int)
    (wstr : Option (List Nat)) : EngineOut σ :=
  match win with
  | some w =>
    match mv w y x with
    | none => ⟨false, some w, []⟩
    | some w2 => wins_nwstr ins (some w2) wstr (-1)
  | none => ⟨false, none, []⟩

/-- `mvins_nwstr(y, x, wstr, n)`: move first, then forward to
`wins_nwstr(stdscr, wstr, n)`. -/
def mvins_nwstr {σ : Type} (ins : σ → Nat → Option σ)
    (mv : σ → Int → Int → Option σ) (std : Option σ) (y x : Int)
    (wstr : Option (List Nat)) (n : Int) : EngineOut σ :=
  match std with
  | some w =>
    match mv w y x with
    | none => ⟨false, some w, []⟩
    | some w2 => wins_nwstr ins (some w2) wstr n
  | none => ⟨false, none, []⟩

/-- `mvwins_nwstr(win, y, x, wstr, n)`: move first, then forward to
`wins_nwstr(win, wstr, n)`. -/
def mvwins_nwstr {σ : Type} (ins : σ → Nat → Option σ)
    (mv : σ → Int → Int → Option σ) (win : Option σ) (y x : Int)
    (wstr : Option (List Nat)) (n : Int) : EngineOut σ :=
  match win with
  | some w =>
    match mv w y x with
    | none => ⟨false, some w, []⟩
    | some w2 => wins_nwstr ins (some w2) wstr n
  | none => ⟨false, none, []⟩

/-! Instrumentation and concrete primitives used by the theorems. -/

/-- The sequence of source positions visited by `insLoop` run with
counter `n`: the units at positions `n-1, n-2, ..., 0`, where the
terminator and any out-of-bounds position read as `0`. -/
def callSeq (s : List Nat) (n : Nat) : List Nat :=
  (List.range n).reverse.map (fun m => s.getD m 0)

/-- Insert primitive over the trivial state, always succeeding. -/
def unitIns : Unit → Nat → Option Unit := fun _ _ => some ()

/-- Single-byte decoder that signals a decode stoppage (retval `0`) on
the byte `255`. -/
def decStop : List Nat → Nat → Int × Nat :=
  fun bs _ => if bs.headD 0 = 255 then (0, 0) else (1, bs.headD 0)

/-- Concrete window state for the layout and frame theorems: cursor
column, cursor row, line width, and the grid of lines. -/
structure Window where
  curx : Nat
  cury : Nat
  width : Nat
  lines : List (List Nat)
  deriving DecidableEq

/-- Modelled from the spec: the external single-cell insert primitive
`winsch` (`insert_cell` in section 6 of the spec; its source file
`pdc_insch.c` is not under `src/`).  It inserts one unit at the current
cursor column of the line at the current cursor row, shifting that line
rightward by one cell and dropping the rightmost cell that overflows the
line width; the cursor does not move; it fails when the cursor position
is invalid. -/
def winschM (w : Window) (u : Nat) : Option Window :=
  if w.cury < w.lines.length ∧ w.curx < w.width then
    some { w with
            lines := w.lines.set w.cury
              (((w.lines.getD w.cury []).take w.curx ++
                u :: (w.lines.getD w.cury []).drop w.curx).take w.width) }
  else none

/-- Frame relation between an initial and a final window: same cursor,
same width, same number of lines, and every line other than the cursor
row unchanged. -/
def frameOk (w w2 : Window) : Prop :=
  w2.curx = w.curx ∧ w2.cury = w.cury ∧ w2.width = w.width ∧
    w2.lines.length = w.lines.length ∧
    ∀ r, r ≠ w.cury → w2.lines.getD r [] = w.lines.getD r []

/-! Helper lemmas. -/

lemma callSeq_succ (s : List Nat) (n : Nat) :
    callSeq s (n + 1) = s.getD n 0 :: callSeq s n := by
  simp [callSeq, List.range_succ]

lemma callSeq_eq_take (s : List Nat) :
    ∀ n, n ≤ s.length → callSeq s n = (s.take n).reverse := by
  intro n
  induction n with
  | zero => simp [callSeq]
  | succ m ih =>
    intro h
    have hm : m < s.length := h
    have h1 : s.take (m + 1) = s.take m ++ [s.getD m 0] := by
      rw [List.take_succ]
      simp [List.getElem?_eq_getElem hm, List.getD_eq_getElem _ _ hm]
    rw [callSeq_succ, ih (Nat.le_of_succ_le h), h1, List.reverse_append,
      List.reverse_singleton, List.singleton_append]

lemma callSeq_length_reverse (s : List Nat) :
    callSeq s s.length = s.reverse := by
  rw [callSeq_eq_take s s.length (le_refl _), List.take_length]

/-- With an always-succeeding primitive, the insertion loop succeeds and
passes exactly the units `callSeq s n` to the primitive. -/
lemma insLoop_total {σ : Type} (ins : σ → Nat → Option σ)
    (h0 : ∀ st u, (ins st u).isSome) (s : List Nat) :
    ∀ n w, (insLoop ins s n w).1 = true ∧
      (insLoop ins s n w).2.2 = callSeq s n := by
  intro n
  induction n with
  | zero => intro w; simp [insLoop, callSeq]
  | succ m ih =>
    intro w
    obtain ⟨v, hv⟩ := Option.isSome_iff_exists.mp (h0 w (s.getD m 0))
    simp only [insLoop, hv, callSeq_succ]
    exact ⟨(ih v).1, by rw [(ih v).2]⟩

/-- The insertion loop makes at most `n` calls to the primitive. -/
lemma insLoop_calls_length_le {σ : Type} (ins : σ → Nat → Option σ)
    (s : List Nat) :
    ∀ n w, (insLoop ins s n w).2.2.length ≤ n := by
  intro n
  induction n with
  | zero => intro w; simp [insLoop]
  | succ m ih =>
    intro w
    cases hv : ins w (s.getD m 0) with
    | none => simp only [insLoop, hv]; simp
    | some v =>
      simp only [insLoop, hv, List.length_cons]
      exact Nat.succ_le_succ (ih v)

lemma decodeLoop_length_le_aux (dec : List Nat → Nat → Int × Nat)
    (s : List Nat) (n : Nat) :
    ∀ m i, n - i ≤ m → (decodeLoop dec s n i).length ≤ n - i := by
  intro m
  induction m with
  | zero =>
    intro i h
    rw [decodeLoop]
    have hg : ¬(i < s.length ∧ i < n) := by omega
    simp [hg]
  | succ m ih =>
    intro i h
    rw [decodeLoop]
    by_cases hg : i < s.length ∧ i < n
    · by_cases hr : (dec (s.drop i) (n - i)).1 ≤ 0
      · simp [hg, hr]
      · have htn : 1 ≤ (dec (s.drop i) (n - i)).1.toNat := by omega
        have hrec := ih (i + (dec (s.drop i) (n - i)).1.toNat) (by omega)
        simp only [hg, hr, dite_true, dite_false, and_self, dite_eq_ite]
        simp [hg, hr, List.length_cons]
        omega
    · simp [hg]

/-- The decode loop appends at most one unit per remaining budget byte:
the buffer it produces from byte position `i` has at most `n - i`
units. -/
lemma decodeLoop_length_le (dec : List Nat → Nat → Int × Nat)
    (s : List Nat) (n i : Nat) :
    (decodeLoop dec s n i).length ≤ n - i :=
  decodeLoop_length_le_aux dec s n (n - i) i (le_refl _)

lemma wideEff_le_512 (s : List Nat) (n : Int) : wideEff s n ≤ 512 := by
  unfold wideEff
  split
  · exact le_refl 512
  · omega

lemma frameOk_refl (w : Window) : frameOk w w :=
  ⟨rfl, rfl, rfl, rfl, fun _ _ => rfl⟩

lemma frameOk_trans {w1 w2 w3 : Window} (h12 : frameOk w1 w2)
    (h23 : frameOk w2 w3) : frameOk w1 w3 := by
  obtain ⟨a1, b1, c1, d1, e1⟩ := h12
  obtain ⟨a2, b2, c2, d2, e2⟩ := h23
  refine ⟨a2.trans a1, b2.trans b1, c2.trans c1, d2.trans d1, ?_⟩
  intro r hr
  rw [e2 r (by rw [b1]; exact hr), e1 r hr]

/-- The spec-modelled single-cell insert primitive only rewrites the
line at the cursor row: cursor, width, line count and all other lines
are untouched. -/
lemma winschM_frame {w w2 : Window} {u : Nat}
    (h : winschM w u = some w2) : frameOk w w2 := by
  unfold winschM at h
  split at h
  · injection h with h2
    subst h2
    refine ⟨rfl, rfl, rfl, by simp, ?_⟩
    intro r hr
    simp [List.getElem?_set_ne (Ne.symm hr)]
  · exact absurd h (by simp)

/-- The insertion loop driven by the spec-modelled primitive preserves
the frame relation. -/
lemma insLoop_frame (s : List Nat) :
    ∀ n (w : Window), frameOk w (insLoop winschM s n w).2.1 := by
  intro n
  induction n with
  | zero => intro w; exact frameOk_refl w
  | succ m ih =>
    intro w
    cases hv : winschM w (s.getD m 0) with
    | none => simp only [insLoop, hv]; exact frameOk_refl w
    | some v =>
      simp only [insLoop, hv]
      exact frameOk_trans (winschM_frame hv) (ih v)

/-- C1: the spec requires that a limit `n` with `0 <= n <= strlen(source)`
inserts exactly `n` units.  The code computes
`if (n < 0 || n < len) { n = len; }`, replacing every limit strictly
below the length by the full length: with source "AB" and limit 1 both
`winsnstr` and `wins_nwstr` make two insert-primitive calls (B then A),
not one.  The file documentation ("insert at most n characters")
matches the spec, so the code is the slip. -/
theorem winsnstr_small_limit_overrun :
    (winsnstr unitIns (some ()) (some [65, 66]) 1).calls = [66, 65] ∧
    (wins_nwstr unitIns (some ()) (some [65, 66]) 1).calls = [66, 65] := by
  decide

/-- C2: the spec requires a limit above the source length to be clamped
down to the length, with no read past the terminator.  The clamp
condition `n < len` is false for `n > len`, so `n` stays `3` for the
one-character source "A": both engines make three insert calls, the
first two reading positions 2 and 1, which are past the terminator
(position 1 is the NUL, read as 0 in the model). -/
theorem winsnstr_large_limit_unclamped :
    (winsnstr unitIns (some ()) (some [65]) 3).calls = [0, 0, 65] ∧
    (wins_nwstr unitIns (some ()) (some [65]) 3).calls = [0, 0, 65] := by
  decide

/-- C3: a null window or a null source makes every engine return ERR
with zero insert-primitive calls and the window unchanged, for every
insert primitive and every decoder. -/
theorem winsnstr_null_args {σ : Type} (dec : List Nat → Nat → Int × Nat)
    (ins : σ → Nat → Option σ) (win : Option σ) (s : List Nat) (n : Int) :
    winsnstr ins none (some s) n = ⟨false, none, []⟩ ∧
    winsnstr ins win none n = ⟨false, win, []⟩ ∧
    wins_nwstr ins none (some s) n = ⟨false, none, []⟩ ∧
    wins_nwstr ins win none n = ⟨false, win, []⟩ ∧
    winsnstrWide dec ins none (some s) n = ⟨false, none, []⟩ ∧
    winsnstrWide dec ins win none n = ⟨false, win, []⟩ := by
  cases win <;> exact ⟨rfl, rfl, rfl, rfl, rfl, rfl⟩

/-- C5: in the wide build with a narrow source, whatever prefix the
decode loop produced when it stopped (a nonpositive retval stops it
immediately, by the definition of `decodeLoop`) is inserted in reverse
decode order, and the call returns OK: a decode stoppage surfaces no
error, provided the insert primitive itself never fails. -/
theorem winsnstr_wide_decode_stop_ok {σ : Type}
    (dec : List Nat → Nat → Int × Nat) (ins : σ → Nat → Option σ)
    (h0 : ∀ st u, (ins st u).isSome) (w : σ) (s : List Nat) (n : Int) :
    (winsnstrWide dec ins (some w) (some s) n).ok = true ∧
    (winsnstrWide dec ins (some w) (some s) n).calls =
      (decodeLoop dec s (wideEff s n) 0).reverse := by
  have h := insLoop_total ins h0 (decodeLoop dec s (wideEff s n) 0)
    (decodeLoop dec s (wideEff s n) 0).length w
  constructor
  · simp only [winsnstrWide]
    exact h.1
  · simp only [winsnstrWide]
    rw [h.2, callSeq_length_reverse]

/-- Witness for the decode-stoppage theorem: the single-byte decoder
that stops on byte 255 against the source `[65, 255, 66]`; only the
one unit decoded before the stoppage is inserted, and the call is OK. -/
theorem winsnstr_wide_decode_stop_ok_witness :
    (winsnstrWide decStop unitIns (some ()) (some [65, 255, 66]) (-1)).ok
        = true ∧
    (winsnstrWide decStop unitIns (some ()) (some [65, 255, 66]) (-1)).calls
        = (decodeLoop decStop [65, 255, 66]
            (wideEff [65, 255, 66] (-1)) 0).reverse :=
  winsnstr_wide_decode_stop_ok decStop unitIns (fun _ _ => rfl) ()
    [65, 255, 66] (-1)

/-- C6: in the wide build with limit -1 the effective byte budget is
capped at 512 before decoding, and at most 512 units are ever inserted,
for every source string (in particular one of 600 single-byte
characters), every decoder and every insert primitive. -/
theorem winsnstr_wide_hard_cap {σ : Type} (dec : List Nat → Nat → Int × Nat)
    (ins : σ → Nat → Option σ) (w : σ) (s : List Nat) :
    wideEff s (-1) ≤ 512 ∧
    (winsnstrWide dec ins (some w) (some s) (-1)).calls.length ≤ 512 := by
  refine ⟨wideEff_le_512 s (-1), ?_⟩
  have h1 := insLoop_calls_length_le ins (decodeLoop dec s (wideEff s (-1)) 0)
    (decodeLoop dec s (wideEff s (-1)) 0).length w
  have h2 := decodeLoop_length_le dec s (wideEff s (-1)) 0
  have h3 := wideEff_le_512 s (-1)
  simp only [winsnstrWide]
  omega

/-- C7: inserting source "AB" with unlimited limit into an empty
five-cell line with the cursor at column 0, under the spec-modelled
single-cell primitive, makes the calls `[66, 65]` (B first, then A) and
leaves the line reading "AB" in forward order from the cursor column,
with the cursor unchanged. -/
theorem winsnstr_reverse_order_ab :
    winsnstr winschM
        (some ⟨0, 0, 5, [[32, 32, 32, 32, 32]]⟩) (some [65, 66]) (-1) =
      ⟨true, some ⟨0, 0, 5, [[65, 66, 32, 32, 32]]⟩, [66, 65]⟩ := by
  decide

/-- C9: under the spec-modelled single-cell primitive, all three engines
mutate at most the line at the cursor row of the target window: the
result window (the input itself when the source is null) keeps the
cursor column, cursor row, width, line count, and every line other than
the cursor row. -/
theorem winsnstr_frame_effect (dec : List Nat → Nat → Int × Nat)
    (str : Option (List Nat)) (n : Int) (w : Window) :
    frameOk w ((winsnstr winschM (some w) str n).win.getD w) ∧
    frameOk w ((wins_nwstr winschM (some w) str n).win.getD w) ∧
    frameOk w ((winsnstrWide dec winschM (some w) str n).win.getD w) := by
  cases str with
  | none => exact ⟨frameOk_refl w, frameOk_refl w, frameOk_refl w⟩
  | some s =>
    refine ⟨?_, ?_, ?_⟩ <;>
      · simp only [winsnstr, wins_nwstr, winsnstrWide, Option.getD_some]
        exact insLoop_frame _ _ _

/-- C10: the wide-build decode loop is memory safe: the byte budget it
receives is at most 512, and from any byte position `i` it appends at
most `budget - i` units, so at most 512 units are ever written into the
513-slot intermediate buffer (every write index is at most 511 and the
final unit cursor is at most 512).  Termination of the loop (`i`
strictly increases while `i < n` because a successful decode has
`retval > 0`) is what makes `decodeLoop` total, witnessed by its
termination measure `n - i`. -/
theorem winsnstr_decode_loop_safe (dec : List Nat → Nat → Int × Nat)
    (s : List Nat) (n : Int) :
    wideEff s n ≤ 512 ∧
    (∀ i, (decodeLoop dec s (wideEff s n) i).length ≤ wideEff s n - i) ∧
    (decodeLoop dec s (wideEff s n) 0).length ≤ 512 := by
  refine ⟨wideEff_le_512 s n, fun i => decodeLoop_length_le dec s _ i, ?_⟩
  have h1 := decodeLoop_length_le dec s (wideEff s n) 0
  have h2 := wideEff_le_512 s n
  omega

/-- C8: every convenience entry point is pure argument forwarding with
no new logic: `insstr`, `winsstr`, `insnstr` (and the wide `ins_wstr`,
`wins_wstr`, `ins_nwstr`) delegate to the core engine with the default
window or the unbounded limit filled in; every `mv*` variant first
performs the cursor move, returns ERR with zero insert calls and an
unchanged window when the move fails (including on a null window), and
otherwise delegates to the core engine on the moved window unchanged. -/
theorem wrappers_pure_forwarding {σ : Type} (ins : σ → Nat → Option σ)
    (mv : σ → Int → Int → Option σ) (std win : Option σ) (w : σ)
    (y x : Int) (s : Option (List Nat)) (n : Int) :
    insstr ins std s = winsnstr ins std s (-1) ∧
    winsstr ins win s = winsnstr ins win s (-1) ∧
    insnstr ins std s n = winsnstr ins std s n ∧
    ins_wstr ins std s = wins_nwstr ins std s (-1) ∧
    wins_wstr ins win s = wins_nwstr ins win s (-1) ∧
    ins_nwstr ins std s n = wins_nwstr ins std s n ∧
    mvinsstr ins mv (some w) y x s =
      (match mv w y x with
        | none => (⟨false, some w, []⟩ : EngineOut σ)
        | some w2 => winsnstr ins (some w2) s (-1)) ∧
    mvwinsstr ins mv (some w) y x s =
      (match mv w y x with
        | none => (⟨false, some w, []⟩ : EngineOut σ)
        | some w2 => winsnstr ins (some w2) s (-1)) ∧
    mvinsnstr ins mv (some w) y x s n =
      (match mv w y x with
        | none => (⟨false, some w, []⟩ : EngineOut σ)
        | some w2 => winsnstr ins (some w2) s n) ∧
    mvwinsnstr ins mv (some w) y x s n =
      (match mv w y x with
        | none => (⟨false, some w, []⟩ : EngineOut σ)
        | some w2 => winsnstr ins (some w2) s n) ∧
    mvins_wstr ins mv (some w) y x s =
      (match mv w y x with
        | none => (⟨false, some w, []⟩ : EngineOut σ)
        | some w2 => wins_nwstr ins (some w2) s (-1)) ∧
    mvwins_wstr ins mv (some w) y x s =
      (match mv w y x with
        | none => (⟨false, some w, []⟩ : EngineOut σ)
        | some w2 => wins_nwstr ins (some w2) s (-1)) ∧
    mvins_nwstr ins mv (some w) y x s n =
      (match mv w y x with
        | none => (⟨false, some w, []⟩ : EngineOut σ)
        | some w2 => wins_nwstr ins (some w2) s n) ∧
    mvwins_nwstr ins mv (some w) y x s n =
      (match mv w y x with
        | none => (⟨false, some w, []⟩ : EngineOut σ)
        | some w2 => wins_nwstr ins (some w2) s n) ∧
    mvinsstr ins mv none y x s = ⟨false, none, []⟩ ∧
    mvwinsstr ins mv none y x s = ⟨false, none, []⟩ ∧
    mvinsnstr ins mv none y x s n = ⟨false, none, []⟩ ∧
    mvwinsnstr ins mv none y x s n = ⟨false, none, []⟩ ∧
    mvins_wstr ins mv none y x s = ⟨false, none, []⟩ ∧
    mvwins_wstr ins mv none y x s = ⟨false, none, []⟩ ∧
    mvins_nwstr ins mv none y x s n = ⟨false, none, []⟩ ∧
    mvwins_nwstr ins mv none y x s n = ⟨false, none, []⟩ :=
  ⟨rfl, rfl, rfl, rfl, rfl, rfl, rfl, rfl, rfl, rfl, rfl, rfl, rfl, rfl,
    rfl, rfl, rfl, rfl, rfl, rfl, rfl, rfl⟩
